import Mathlib

/-!
Shallow embedding of `src/diffusers/pipelines/model_manager.py`.

The source manages placement of large torch modules between a
capacity-constrained execution device and the CPU.  The parts embedded here
are the ones the verified claims are about:

* `get_memory_footprint` (lines 37-53): byte size of a module, summing
  `nelement * element_size` over parameters and (optionally) buffers;
* `AutoOffloadStrategy.__call__` with its inner `search_best_candidate`
  (lines 163-227): the eviction-selection search;
* `CustomOffloadHook.pre_forward` (lines 92-122): the per-invocation guard;
* `ModelManager` (lines 230-316): the registry (`add`, `remove`,
  `enable_auto_cpu_offload`, `disable_auto_cpu_offload`, `__repr__`).

Modelling conventions: torch modules are records carrying exactly the
attributes the source reads (device, class name, dtype, parameter/buffer
shapes); byte sizes are natural numbers; Python floats (the margin, the
`required` and `deficit` quantities) are rationals; external primitives
(`torch.cuda.mem_get_info`, `send_to_device`, `clear_device_cache`) are
passed in as values or modelled by their effect on the embedded state;
logging and timing calls have no state effect and are dropped.
-/

/-- Model of `torch.device`: a device type string plus an optional index,
compared componentwise (as torch compares devices). -/
structure TorchDevice where
  type : String
  index : Option ℕ
deriving DecidableEq

/-- The CPU device, the overflow location models are offloaded to. -/
def cpuDevice : TorchDevice := ⟨"cpu", none⟩

/-- Device normalization performed by `enable_auto_cpu_offload`
(lines 254-256): a device without an explicit index gets index 0. -/
def normalizeDevice (d : TorchDevice) : TorchDevice :=
  match d.index with
  | none => ⟨d.type, some 0⟩
  | some i => ⟨d.type, some i⟩

/-- Model of a torch tensor as the source consumes it: only `nelement`
and `element_size` are read (by `get_memory_footprint`). -/
structure PyTensor where
  nelement : ℕ
  element_size : ℕ
deriving DecidableEq

/-- Model of a `torch.nn.Module` restricted to the attributes the source
reads: its current device, class name, dtype and the tensors contributing
to its memory footprint. -/
structure PyModule where
  device : TorchDevice
  className : String
  dtype : String
  params : List PyTensor
  buffers : List PyTensor
deriving DecidableEq

/-- Lines 37-53: memory footprint of a model in bytes, the sum of
`nelement * element_size` over parameters, plus the same sum over buffers
when `return_buffers` is set. -/
def get_memory_footprint (m : PyModule) (return_buffers : Bool) : ℕ :=
  let mem := (m.params.map (fun p => p.nelement * p.element_size)).sum
  if return_buffers then
    mem + (m.buffers.map (fun b => b.nelement * b.element_size)).sum
  else mem

/-- Footprint with the source's default argument `return_buffers=True`,
as every call site in the source uses it. -/
def footprint (m : PyModule) : ℕ := get_memory_footprint m true

/-- Model of `module.to(device)`: same module, relocated. -/
def moduleTo (m : PyModule) (d : TorchDevice) : PyModule :=
  ⟨d, m.className, m.dtype, m.params, m.buffers⟩

/-- Offload to the CPU, the effect of `init_hook` / `hook.offload()`. -/
def toCpu (m : PyModule) : PyModule := moduleTo m cpuDevice

/-- Lines 187-193: the `module_sizes` dictionary, id -> footprint, sorted
by size in descending order.  Python `sorted(..., reverse=True)` is a
stable sort, so any stable sort computes the identical list;
`List.insertionSort` with this comparator is stable. -/
def moduleSizes (hooks : List (String × PyModule)) : List (String × ℕ) :=
  List.insertionSort (fun a b => b.2 ≤ a.2)
    (hooks.map (fun h => (h.1, footprint h.2)))

/-- Total size of a candidate combination: the sum the source computes as
`sum(module_sizes[i] for i in candidate_model_ids)` (lines 206-208). -/
def candTotal (c : List (String × ℕ)) : ℕ := (c.map Prod.snd).sum

/-- Lines 204-205: the combinations enumerated by the search, `r` running
from 1 to the number of candidates and, for each `r`, all size-`r`
subsequences of the candidate list. -/
def allCombinations (l : List (String × ℕ)) : List (List (String × ℕ)) :=
  (List.range l.length).flatMap (fun r => List.sublistsLen (r + 1) l)

/-- Lines 209-214: one step of the search loop.  A combination whose total
size is below `min_memory_offload` is skipped; otherwise it replaces the
current best when no best exists yet or when its total is strictly
smaller.  `min_memory_offload` is a Python float, hence a rational here,
while candidate totals are integer byte counts. -/
def chooseBetter (min_memory_offload : ℚ) (best : Option (List (String × ℕ)))
    (c : List (String × ℕ)) : Option (List (String × ℕ)) :=
  if (candTotal c : ℚ) < min_memory_offload then best
  else
    match best with
    | none => some c
    | some b => if candTotal c < candTotal b then some c else some b

/-- Lines 195-216: `search_best_candidate`.  Folding `chooseBetter` over
every enumerated combination, starting from `best_candidate = None`,
returns the combination of smallest total size among those reaching
`min_memory_offload`, or `None` when no combination reaches it. -/
def search_best_candidate (module_sizes : List (String × ℕ))
    (min_memory_offload : ℚ) : Option (List (String × ℕ)) :=
  (allCombinations module_sizes).foldl (chooseBetter min_memory_offload) none

/-- Model of `AutoOffloadStrategy` (lines 163-170): its only state is the
`size_estimation_margin` set at construction. -/
structure AutoOffloadStrategy where
  size_estimation_margin : ℚ
deriving DecidableEq

/-- Lines 172-227: `AutoOffloadStrategy.__call__`.  `hooks` is the list of
(model_id, model) pairs of the candidate hooks; `model` is the module
about to run; `mem_on_device` is the value the free-memory primitive
`torch.cuda.mem_get_info` returned.  The `model_id` argument of the
source is only used for logging and is dropped. -/
def AutoOffloadStrategy.call (strategy : AutoOffloadStrategy)
    (hooks : List (String × PyModule)) (model : PyModule)
    (mem_on_device : ℕ) : List (String × PyModule) :=
  if hooks.length = 0 then []
  else
    let current_module_size : ℚ :=
      (footprint model : ℚ) * (1 + strategy.size_estimation_margin)
    if current_module_size < (mem_on_device : ℚ) then []
    else
      let min_memory_offload := current_module_size - (mem_on_device : ℚ)
      let module_sizes := moduleSizes hooks
      match search_best_candidate module_sizes min_memory_offload with
      | none => hooks
      | some best => hooks.filter (fun h => (best.map Prod.fst).contains h.1)

/-- Model of a tensor argument to a forward call: a payload plus the
device it resides on. -/
structure TensorArg where
  value : ℕ
  device : TorchDevice
deriving DecidableEq

/-- Model of accelerate's `send_to_device`: every tensor in the argument
tuple is moved to the device, payloads unchanged. -/
def send_to_device (args : List TensorArg) (d : TorchDevice) : List TensorArg :=
  args.map (fun a => ⟨a.value, d⟩)

/-- Observable outcome of one `pre_forward` call: the module after its
possible move, the ids of the peers offloaded to CPU (in offload order),
and the argument tuple and keyword arguments as forwarded. -/
structure PreForwardResult where
  module : PyModule
  offloaded : List String
  args : List TensorArg
  kwargs : List (String × TensorArg)
deriving DecidableEq

/-- Lines 92-122: `CustomOffloadHook.pre_forward`.  `other_hooks` is the
hook's peer list as (model_id, model) pairs (`None` when never wired);
`offload_strategy` is the optional strategy; `mem_on_device` feeds the
strategy's free-memory query.  When the module is already on the
execution device the whole offload block is skipped; in both branches the
returned args and kwargs are `send_to_device`'d to the execution
device. -/
def CustomOffloadHook.pre_forward (execution_device : TorchDevice)
    (other_hooks : Option (List (String × PyModule)))
    (offload_strategy : Option AutoOffloadStrategy)
    (mem_on_device : ℕ) (module : PyModule)
    (args : List TensorArg) (kwargs : List (String × TensorArg)) :
    PreForwardResult :=
  if module.device ≠ execution_device then
    let offloaded :=
      match other_hooks with
      | none => []
      | some hs =>
        let hooks_to_offload := hs.filter (fun h => h.2.device == execution_device)
        let selected :=
          match offload_strategy with
          | some strategy => strategy.call hooks_to_offload module mem_on_device
          | none => hooks_to_offload
        selected.map Prod.fst
    ⟨moduleTo module execution_device, offloaded,
     send_to_device args execution_device,
     kwargs.map (fun p => (p.1, ⟨p.2.value, execution_device⟩))⟩
  else
    ⟨module, [],
     send_to_device args execution_device,
     kwargs.map (fun p => (p.1, ⟨p.2.value, execution_device⟩))⟩

/-- State of one `UserCustomOffloadHook` (lines 125-148) together with its
owned `CustomOffloadHook`: the owning model id, the execution device, the
peer list (`other_hooks`, stored as the peers' model ids — the Python
object references — in wiring order) and the margin of the shared
`AutoOffloadStrategy` the registry installed. -/
structure UserCustomOffloadHook where
  model_id : String
  execution_device : TorchDevice
  other_hooks : List String
  size_estimation_margin : ℚ
deriving DecidableEq

/-- State of `ModelManager` (lines 230-234): the ordered model dict, the
stored hook list (`None` when never enabled or after disable), the enabled
flag, and `_auto_offload_device` (absent until the first enable). -/
structure ModelManager where
  models : List (String × PyModule)
  model_hooks : Option (List UserCustomOffloadHook)
  auto_offload_enabled : Bool
  auto_offload_device : Option TorchDevice
deriving DecidableEq

/-- Fresh manager, as built by `ModelManager.__init__`. -/
def ModelManager.init : ModelManager := ⟨[], none, false, none⟩

/-- Lines 272-283: `disable_auto_cpu_offload`.  With no stored hooks it
only clears the enabled flag; otherwise every hooked model is offloaded
to CPU (`hook.offload()`), the hooks are detached, the device cache is
released (no state effect here) and the hook list is cleared. -/
def ModelManager.disable_auto_cpu_offload (self : ModelManager) : ModelManager :=
  match self.model_hooks with
  | none => ⟨self.models, none, false, self.auto_offload_device⟩
  | some hooks =>
    ⟨self.models.map
        (fun p => if hooks.any (fun h => h.model_id == p.1) then (p.1, toCpu p.2) else p),
     none, false, self.auto_offload_device⟩

/-- Lines 257-266: hook construction and peer wiring of
`enable_auto_cpu_offload`.  One hook per model entry, in order; then for
every hook, every other hook whose execution device equals its own is
appended to its peer list.  All hooks of one call share the normalized
device `dev`, so the device guard of line 265 compares `dev` with
itself. -/
def buildHooks (models : List (String × PyModule)) (dev : TorchDevice)
    (margin : ℚ) : List UserCustomOffloadHook :=
  models.enum.map (fun ie =>
    ⟨ie.2.1, dev,
     ((models.enum.filter (fun je => je.1 != ie.1 && dev == dev)).map
        (fun je => je.2.1)),
     margin⟩)

/-- Lines 247-270: `enable_auto_cpu_offload`.  The loop stripping stale
externally-attached hooks has no effect on the embedded state; then any
existing auto-offload state is disabled, the device is normalized, one
shared `AutoOffloadStrategy margin` is built, one attached hook per model
is created (attaching offloads the model to CPU via `init_hook`), peers
are wired, and the manager is marked enabled. -/
def ModelManager.enable_auto_cpu_offload (self : ModelManager)
    (device : TorchDevice) (size_estimation_margin : ℚ) : ModelManager :=
  let st := self.disable_auto_cpu_offload
  let dev := normalizeDevice device
  let all_hooks := buildHooks st.models dev size_estimation_margin
  ⟨st.models.map (fun p => (p.1, toCpu p.2)), some all_hooks, true, some dev⟩

/-- Lines 236-241: `add`.  A present id makes the call a no-op; otherwise
the model is appended and, when auto-offload is enabled, the registry is
fully rewired by calling `enable_auto_cpu_offload(self._auto_offload_device)`
— with the DEFAULT margin 0.1, whatever margin the earlier enable used.
The stored device is always set when the enabled flag is, so the `getD`
default is never reached. -/
def ModelManager.add (self : ModelManager) (model_id : String)
    (model : PyModule) : ModelManager :=
  if self.models.any (fun p => p.1 == model_id) then self
  else
    let inserted : ModelManager :=
      ⟨self.models ++ [(model_id, model)], self.model_hooks,
       self.auto_offload_enabled, self.auto_offload_device⟩
    if inserted.auto_offload_enabled then
      inserted.enable_auto_cpu_offload (inserted.auto_offload_device.getD cpuDevice) (1/10)
    else inserted

/-- Lines 242-245: `remove`.  `self.models.pop(model_id)` raises `KeyError`
on an absent id, before any mutation — modelled by returning `none`;
otherwise the entry is removed (order of the others preserved) and, when
enabled, the registry is rewired with the default margin 0.1. -/
def ModelManager.remove (self : ModelManager) (model_id : String) :
    Option ModelManager :=
  if self.models.any (fun p => p.1 == model_id) then
    let popped : ModelManager :=
      ⟨self.models.filter (fun p => p.1 != model_id), self.model_hooks,
       self.auto_offload_enabled, self.auto_offload_device⟩
    some (if popped.auto_offload_enabled then
            popped.enable_auto_cpu_offload (popped.auto_offload_device.getD cpuDevice) (1/10)
          else popped)
  else none

/-- Python `max` over a sequence: raises `ValueError` on an empty
sequence, modelled by `none`. -/
def pyMax (l : List ℕ) : Option ℕ :=
  match l with
  | [] => none
  | x :: xs => some (xs.foldl Nat.max x)

/-- Data content of the table `__repr__` renders: the two computed column
widths and one row of (id, class name, device, dtype, size in bytes) per
model in insertion order. -/
structure ReprTable where
  id_width : ℕ
  class_width : ℕ
  rows : List (String × String × TorchDevice × String × ℕ)
deriving DecidableEq

/-- Lines 285-316: `__repr__`.  The column-width computation (lines
286-292) applies Python `max` to the sequence of id lengths and to the
sequence of class-name lengths, so it raises on an empty registry; string
padding and the float formatting of sizes are abstracted to the table's
data content, which is all the verified claims refer to. -/
def ModelManager.reprTable (self : ModelManager) : Option ReprTable :=
  match pyMax (self.models.map (fun p => p.1.length)),
        pyMax (self.models.map (fun p => p.2.className.length)) with
  | some idw, some cw =>
    some ⟨Nat.max 15 idw, Nat.max 25 cw,
          self.models.map (fun p => (p.1, p.2.className, p.2.device, p.2.dtype, footprint p.2))⟩
  | _, _ => none


/-!
Lemmas about the best-cover search.
-/

/-- Membership in the enumerated combinations is exactly being a non-empty
subsequence of the candidate list. -/
lemma mem_allCombinations {l c : List (String × ℕ)} :
    c ∈ allCombinations l ↔ c.Sublist l ∧ c ≠ [] := by
  unfold allCombinations
  simp only [List.mem_flatMap, List.mem_range, List.mem_sublistsLen]
  constructor
  · rintro ⟨r, hr, hsub, hlen⟩
    refine ⟨hsub, ?_⟩
    intro hc
    subst hc
    simp at hlen
  · rintro ⟨hsub, hne⟩
    have h1 : 1 ≤ c.length := List.length_pos.mpr hne
    have h2 : c.length ≤ l.length := hsub.length_le
    exact ⟨c.length - 1, by omega, hsub, by omega⟩

/-- Folding the search step from an existing best candidate always ends on
some candidate whose total is no larger, that is either the start or one
of the scanned combinations, is feasible whenever the start is, and is
minimal among the feasible scanned combinations. -/
lemma foldl_chooseBetter_some_spec (d : ℚ) (L : List (List (String × ℕ))) :
    ∀ b : List (String × ℕ),
      ∃ s, L.foldl (chooseBetter d) (some b) = some s ∧
        candTotal s ≤ candTotal b ∧ (s = b ∨ s ∈ L) ∧
        (d ≤ (candTotal b : ℚ) → d ≤ (candTotal s : ℚ)) ∧
        (∀ c ∈ L, d ≤ (candTotal c : ℚ) → candTotal s ≤ candTotal c) := by
  induction L with
  | nil => intro b; exact ⟨b, rfl, le_refl _, Or.inl rfl, fun h => h, by simp⟩
  | cons c L ih =>
    intro b
    by_cases hskip : (candTotal c : ℚ) < d
    · obtain ⟨s, hfold, hle, hmem, hfeas, hmin⟩ := ih b
      refine ⟨s, ?_, hle, ?_, hfeas, ?_⟩
      · simpa [List.foldl_cons, chooseBetter, hskip] using hfold
      · rcases hmem with h | h
        · exact Or.inl h
        · exact Or.inr (List.mem_cons_of_mem _ h)
      · intro c' hc' hfc'
        rcases List.mem_cons.mp hc' with h | h
        · exact absurd hfc' (by rw [h]; exact not_le.mpr hskip)
        · exact hmin c' h hfc'
    · have hfc : d ≤ (candTotal c : ℚ) := not_lt.mp hskip
      by_cases hlt : candTotal c < candTotal b
      · obtain ⟨s, hfold, hle, hmem, hfeas, hmin⟩ := ih c
        refine ⟨s, ?_, le_trans hle (le_of_lt hlt), ?_, fun _ => hfeas hfc, ?_⟩
        · simpa [List.foldl_cons, chooseBetter, hskip, hlt] using hfold
        · rcases hmem with h | h
          · exact Or.inr (by rw [h]; exact List.mem_cons_self c L)
          · exact Or.inr (List.mem_cons_of_mem _ h)
        · intro c' hc' hfc'
          rcases List.mem_cons.mp hc' with h | h
          · exact h ▸ hle
          · exact hmin c' h hfc'
      · obtain ⟨s, hfold, hle, hmem, hfeas, hmin⟩ := ih b
        refine ⟨s, ?_, hle, ?_, hfeas, ?_⟩
        · simpa [List.foldl_cons, chooseBetter, hskip, hlt] using hfold
        · rcases hmem with h | h
          · exact Or.inl h
          · exact Or.inr (List.mem_cons_of_mem _ h)
        · intro c' hc' hfc'
          rcases List.mem_cons.mp hc' with h | h
          · exact h ▸ le_trans hle (not_lt.mp hlt)
          · exact hmin c' h hfc'

/-- Folding the search step from `none` either stays at `none`, in which
case every scanned combination was below the threshold, or lands on a
feasible scanned combination of minimal total. -/
lemma foldl_chooseBetter_none_spec (d : ℚ) (L : List (List (String × ℕ))) :
    (L.foldl (chooseBetter d) none = none ∧ ∀ c ∈ L, (candTotal c : ℚ) < d) ∨
    (∃ s, L.foldl (chooseBetter d) none = some s ∧ s ∈ L ∧
      d ≤ (candTotal s : ℚ) ∧
      ∀ c ∈ L, d ≤ (candTotal c : ℚ) → candTotal s ≤ candTotal c) := by
  induction L with
  | nil => exact Or.inl ⟨rfl, by simp⟩
  | cons c L ih =>
    by_cases hskip : (candTotal c : ℚ) < d
    · have hstep : chooseBetter d none c = none := by simp [chooseBetter, hskip]
      rcases ih with ⟨hnone, hall⟩ | ⟨s, hfold, hmem, hfeas, hmin⟩
      · refine Or.inl ⟨?_, ?_⟩
        · simpa [List.foldl_cons, hstep] using hnone
        · intro c' hc'
          rcases List.mem_cons.mp hc' with h | h
          · exact h ▸ hskip
          · exact hall c' h
      · refine Or.inr ⟨s, ?_, List.mem_cons_of_mem _ hmem, hfeas, ?_⟩
        · simpa [List.foldl_cons, hstep] using hfold
        · intro c' hc' hfc'
          rcases List.mem_cons.mp hc' with h | h
          · exact absurd hfc' (by rw [h]; exact not_le.mpr hskip)
          · exact hmin c' h hfc'
    · have hfc : d ≤ (candTotal c : ℚ) := not_lt.mp hskip
      have hstep : chooseBetter d none c = some c := by simp [chooseBetter, hskip]
      obtain ⟨s, hfold, hle, hmem, hfeas, hmin⟩ := foldl_chooseBetter_some_spec d L c
      refine Or.inr ⟨s, ?_, ?_, hfeas hfc, ?_⟩
      · simpa [List.foldl_cons, hstep] using hfold
      · rcases hmem with h | h
        · exact by rw [h]; exact List.mem_cons_self c L
        · exact List.mem_cons_of_mem _ h
      · intro c' hc' hfc'
        rcases List.mem_cons.mp hc' with h | h
        · exact h ▸ hle
        · exact hmin c' h hfc'

/-- Claim C1: for every candidate list and every deficit such that some
non-empty subsequence of the candidates has total size at least the
deficit, `search_best_candidate` returns a non-empty subsequence of the
candidates whose total is at least the deficit and is minimal among all
such subsequences (ties broken arbitrarily). -/
theorem claim_C1_search_minimal_cover (l : List (String × ℕ)) (d : ℚ)
    (hfeas : ∃ c, c.Sublist l ∧ c ≠ [] ∧ d ≤ (candTotal c : ℚ)) :
    ∃ s, search_best_candidate l d = some s ∧ s.Sublist l ∧ s ≠ [] ∧
      d ≤ (candTotal s : ℚ) ∧
      ∀ c, c.Sublist l → c ≠ [] → d ≤ (candTotal c : ℚ) →
        candTotal s ≤ candTotal c := by
  obtain ⟨c, hsub, hne, hfc⟩ := hfeas
  have hc : c ∈ allCombinations l := mem_allCombinations.mpr ⟨hsub, hne⟩
  rcases foldl_chooseBetter_none_spec d (allCombinations l) with
    ⟨_, hall⟩ | ⟨s, hfold, hmem, hsfeas, hmin⟩
  · exact absurd hfc (not_le.mpr (hall c hc))
  · obtain ⟨hssub, hsne⟩ := mem_allCombinations.mp hmem
    refine ⟨s, hfold, hssub, hsne, hsfeas, ?_⟩
    intro c' hc'sub hc'ne hc'feas
    exact hmin c' (mem_allCombinations.mpr ⟨hc'sub, hc'ne⟩) hc'feas

/-- Witness for claim C1 at the spec's example: candidate weights 5, 3, 2
and deficit 4.  The search succeeds with a minimal feasible cover, and the
total it selects is 5. -/
theorem claim_C1_search_minimal_cover_witness :
    (∃ s, search_best_candidate [("a", 5), ("b", 3), ("c", 2)] 4 = some s ∧
      s.Sublist [("a", 5), ("b", 3), ("c", 2)] ∧ s ≠ [] ∧
      (4 : ℚ) ≤ (candTotal s : ℚ) ∧
      ∀ c, c.Sublist [("a", 5), ("b", 3), ("c", 2)] → c ≠ [] →
        (4 : ℚ) ≤ (candTotal c : ℚ) → candTotal s ≤ candTotal c) ∧
    (search_best_candidate [("a", 5), ("b", 3), ("c", 2)] 4).map candTotal
      = some 5 := by
  constructor
  · exact claim_C1_search_minimal_cover [("a", 5), ("b", 3), ("c", 2)] 4
      ⟨[("a", 5)], by decide, by decide, by decide⟩
  · decide

/-- Total size of the sorted `module_sizes` list equals the sum of the
candidates' footprints: sorting permutes, and permutations preserve the
sum. -/
lemma candTotal_moduleSizes (hooks : List (String × PyModule)) :
    candTotal (moduleSizes hooks) = (hooks.map (fun h => footprint h.2)).sum := by
  unfold candTotal moduleSizes
  have hperm := List.perm_insertionSort (fun a b : String × ℕ => b.2 ≤ a.2)
    (hooks.map (fun h => (h.1, footprint h.2)))
  have := (hperm.map Prod.snd).sum_eq
  rw [this, List.map_map]
  rfl

/-- Any subsequence of a candidate list has total size at most the whole
list's total. -/
lemma candTotal_sublist_le {c l : List (String × ℕ)} (h : c.Sublist l) :
    candTotal c ≤ candTotal l :=
  (h.map Prod.snd).sum_le_sum (fun _ _ => Nat.zero_le _)

/-- The search returns `None` when even the sum of all candidate sizes is
below the deficit. -/
lemma search_best_candidate_none (l : List (String × ℕ)) (d : ℚ)
    (h : (candTotal l : ℚ) < d) : search_best_candidate l d = none := by
  rcases foldl_chooseBetter_none_spec d (allCombinations l) with
    ⟨hnone, _⟩ | ⟨s, _, hmem, hfeas, _⟩
  · exact hnone
  · obtain ⟨hsub, _⟩ := mem_allCombinations.mp hmem
    have hle : (candTotal s : ℚ) ≤ (candTotal l : ℚ) :=
      Nat.cast_le.mpr (candTotal_sublist_le hsub)
    exact absurd (le_trans hfeas hle) (not_le.mpr h)

/-- Claim C2 (amended): when the margin-inflated footprint of the invoked
model is STRICTLY below the free device memory, the strategy returns the
empty selection, so no peer is moved.  The source compares with `<`
(line 180), not with `≤` as the claim states. -/
theorem claim_C2_fast_path (strategy : AutoOffloadStrategy)
    (hooks : List (String × PyModule)) (model : PyModule) (mem_on_device : ℕ)
    (h : (footprint model : ℚ) * (1 + strategy.size_estimation_margin)
          < (mem_on_device : ℚ)) :
    strategy.call hooks model mem_on_device = [] := by
  unfold AutoOffloadStrategy.call
  by_cases hlen : hooks.length = 0
  · simp [hlen]
  · simp [hlen, h]

/-- Module with footprint 10 bytes, used as the invoked model in concrete
instances. -/
def moduleTen : PyModule :=
  ⟨cpuDevice, "UNet2DConditionModel", "torch.float16", [⟨10, 1⟩], []⟩

/-- Module with footprint 3 bytes, used as a candidate peer. -/
def moduleThree : PyModule :=
  ⟨⟨"cuda", some 0⟩, "AutoencoderKL", "torch.float16", [⟨3, 1⟩], []⟩

/-- Module with footprint 1 byte, used as a candidate peer. -/
def moduleOne : PyModule :=
  ⟨⟨"cuda", some 0⟩, "AutoencoderKL", "torch.float16", [⟨1, 1⟩], []⟩

/-- Counterexample to claim C2 as stated: with margin 0, an invoked model
of footprint 10 and exactly 10 bytes free, the inflated footprint is EQUAL
to the free memory, yet the strategy selects a peer for eviction instead
of returning the empty selection: the source's fast path (line 180) tests
`<`, not `≤`. -/
theorem claim_C2_counterexample :
    ((footprint moduleTen : ℚ)
        * (1 + (AutoOffloadStrategy.mk 0).size_estimation_margin)
      ≤ ((10 : ℕ) : ℚ)) ∧
    (AutoOffloadStrategy.mk 0).call [("vae", moduleThree)] moduleTen 10
      = [("vae", moduleThree)] := by
  constructor
  · norm_num [footprint, get_memory_footprint, moduleTen]
  · unfold AutoOffloadStrategy.call
    norm_num [footprint, get_memory_footprint, moduleTen, moduleThree]
    decide

/-- Witness for the amended claim C2: with margin 0, footprint 10 and 11
bytes free the fast path applies and nothing is selected. -/
theorem claim_C2_fast_path_witness :
    ((footprint moduleTen : ℚ)
        * (1 + (AutoOffloadStrategy.mk 0).size_estimation_margin)
      < ((11 : ℕ) : ℚ)) ∧
    (AutoOffloadStrategy.mk 0).call [("vae", moduleThree)] moduleTen 11 = [] := by
  have h : (footprint moduleTen : ℚ)
      * (1 + (AutoOffloadStrategy.mk 0).size_estimation_margin)
      < ((11 : ℕ) : ℚ) := by
    norm_num [footprint, get_memory_footprint, moduleTen]
  exact ⟨h, claim_C2_fast_path (AutoOffloadStrategy.mk 0) [("vae", moduleThree)]
    moduleTen 11 h⟩

/-- Claim C3: when the candidates' total footprint is strictly below the
deficit (so no subsequence can cover it), the strategy falls back to
selecting ALL candidates.  The hypotheses state that the fast path does
not apply and that the total is below the deficit
`required - mem_on_device`. -/
theorem claim_C3_fallback_all (strategy : AutoOffloadStrategy)
    (hooks : List (String × PyModule)) (model : PyModule) (mem_on_device : ℕ)
    (hne : hooks ≠ [])
    (hfast : (mem_on_device : ℚ)
        ≤ (footprint model : ℚ) * (1 + strategy.size_estimation_margin))
    (hdef : ((hooks.map (fun h => footprint h.2)).sum : ℚ)
        < (footprint model : ℚ) * (1 + strategy.size_estimation_margin)
          - (mem_on_device : ℚ)) :
    strategy.call hooks model mem_on_device = hooks := by
  unfold AutoOffloadStrategy.call
  have hlen : ¬ hooks.length = 0 := by
    simpa [List.length_eq_zero] using hne
  have hnotlt : ¬ ((footprint model : ℚ) * (1 + strategy.size_estimation_margin)
      < (mem_on_device : ℚ)) := not_lt.mpr hfast
  have hnone : search_best_candidate (moduleSizes hooks)
      ((footprint model : ℚ) * (1 + strategy.size_estimation_margin)
        - (mem_on_device : ℚ)) = none := by
    apply search_best_candidate_none
    rw [candTotal_moduleSizes]
    exact hdef
  simp [hlen, hnotlt, hnone]

/-- Witness for claim C3 at the spec's example: candidate weights 1 and 1
with deficit 10 (footprint 10, margin 0, no free memory); the selection is
the full candidate list. -/
theorem claim_C3_fallback_all_witness :
    ([("t1", moduleOne), ("t2", moduleOne)] ≠ ([] : List (String × PyModule))) ∧
    (AutoOffloadStrategy.mk 0).call [("t1", moduleOne), ("t2", moduleOne)]
      moduleTen 0 = [("t1", moduleOne), ("t2", moduleOne)] := by
  refine ⟨by decide, claim_C3_fallback_all (AutoOffloadStrategy.mk 0)
    [("t1", moduleOne), ("t2", moduleOne)] moduleTen 0 (by decide) ?_ ?_⟩
  · norm_num [footprint, get_memory_footprint, moduleTen]
  · norm_num [footprint, get_memory_footprint, moduleTen, moduleOne]

/-- Claim C8 (amended): when the module already resides on the execution
device, `pre_forward` moves no resource — the module is returned in place
and no peer is offloaded — but the call's args and kwargs are still passed
through `send_to_device` (line 122 runs in both branches), so they are
re-homed onto the execution device rather than forwarded untouched. -/
theorem claim_C8_on_device_no_move (execution_device : TorchDevice)
    (other_hooks : Option (List (String × PyModule)))
    (offload_strategy : Option AutoOffloadStrategy)
    (mem_on_device : ℕ) (module : PyModule)
    (args : List TensorArg) (kwargs : List (String × TensorArg))
    (h : module.device = execution_device) :
    (CustomOffloadHook.pre_forward execution_device other_hooks
        offload_strategy mem_on_device module args kwargs).module = module ∧
    (CustomOffloadHook.pre_forward execution_device other_hooks
        offload_strategy mem_on_device module args kwargs).offloaded = [] ∧
    (CustomOffloadHook.pre_forward execution_device other_hooks
        offload_strategy mem_on_device module args kwargs).args
      = send_to_device args execution_device ∧
    (CustomOffloadHook.pre_forward execution_device other_hooks
        offload_strategy mem_on_device module args kwargs).kwargs
      = kwargs.map (fun p => (p.1, ⟨p.2.value, execution_device⟩)) := by
  unfold CustomOffloadHook.pre_forward
  simp [h]

/-- A cuda device with index 0, as `enable_auto_cpu_offload` normalizes
device specifications. -/
def cudaZero : TorchDevice := ⟨"cuda", some 0⟩

/-- Module with footprint 10 that already resides on `cuda:0`. -/
def moduleTenOnCuda : PyModule :=
  ⟨cudaZero, "UNet2DConditionModel", "torch.float16", [⟨10, 1⟩], []⟩

/-- Counterexample to claim C8 as stated: the module is already on the
execution device, so nothing is moved, yet the forwarded args are NOT the
caller's args unchanged — a CPU-resident tensor argument comes back
re-homed on the execution device, because line 122 applies
`send_to_device` in both branches. -/
theorem claim_C8_counterexample :
    (moduleTenOnCuda.device = cudaZero) ∧
    (CustomOffloadHook.pre_forward cudaZero none none 0 moduleTenOnCuda
        [⟨7, cpuDevice⟩] []).args ≠ [⟨7, cpuDevice⟩] := by
  decide

/-- Witness for the amended claim C8 at a concrete on-device call. -/
theorem claim_C8_on_device_no_move_witness :
    (moduleTenOnCuda.device = cudaZero) ∧
    ((CustomOffloadHook.pre_forward cudaZero none none 0 moduleTenOnCuda
        [⟨7, cpuDevice⟩] []).module = moduleTenOnCuda ∧
     (CustomOffloadHook.pre_forward cudaZero none none 0 moduleTenOnCuda
        [⟨7, cpuDevice⟩] []).offloaded = [] ∧
     (CustomOffloadHook.pre_forward cudaZero none none 0 moduleTenOnCuda
        [⟨7, cpuDevice⟩] []).args = send_to_device [⟨7, cpuDevice⟩] cudaZero ∧
     (CustomOffloadHook.pre_forward cudaZero none none 0 moduleTenOnCuda
        [⟨7, cpuDevice⟩] []).kwargs
       = ([] : List (String × TensorArg)).map
           (fun p => (p.1, ⟨p.2.value, cudaZero⟩))) :=
  ⟨rfl, claim_C8_on_device_no_move cudaZero none none 0 moduleTenOnCuda
    [⟨7, cpuDevice⟩] [] rfl⟩

/-- Claim C5: removing an id that is not in the registry fails (Python
`OrderedDict.pop` raises `KeyError` before touching anything), modelled by
the `none` result; in this pure embedding the failing call produces no
successor state, so no partial mutation and no rewiring can occur. -/
theorem claim_C5_remove_absent (self : ModelManager) (model_id : String)
    (h : model_id ∉ self.models.map Prod.fst) :
    self.remove model_id = none := by
  unfold ModelManager.remove
  have hany : self.models.any (fun p => p.1 == model_id) = false := by
    rw [Bool.eq_false_iff]
    intro hc
    obtain ⟨p, hp, hpb⟩ := List.any_eq_true.mp hc
    exact h (List.mem_map.mpr ⟨p, hp, eq_of_beq hpb⟩)
  simp [hany]

/-- Manager holding one model with id `"unet"`, used in concrete
instances. -/
def managerOne : ModelManager :=
  ⟨[("unet", moduleTen)], none, false, none⟩

/-- Witness for claim C5: removing the unknown id `"vae"` from a registry
holding only `"unet"` fails. -/
theorem claim_C5_remove_absent_witness :
    ("vae" ∉ managerOne.models.map Prod.fst) ∧
    managerOne.remove "vae" = none :=
  ⟨by decide, claim_C5_remove_absent managerOne "vae" (by decide)⟩

/-- Claim C6: `add` with an id already present is a no-op — the manager
state (model binding, iteration order, hooks) is returned unchanged, since
line 237's membership test guards the whole body. -/
theorem claim_C6_add_duplicate (self : ModelManager) (model_id : String)
    (model : PyModule) (h : model_id ∈ self.models.map Prod.fst) :
    self.add model_id model = self := by
  unfold ModelManager.add
  have hany : self.models.any (fun p => p.1 == model_id) = true := by
    obtain ⟨p, hp, hpf⟩ := List.mem_map.mp h
    exact List.any_eq_true.mpr ⟨p, hp, by rw [hpf]; exact beq_self_eq_true _⟩
  simp [hany]

/-- Witness for claim C6: re-adding id `"unet"` with a different module
leaves the registry exactly as it was. -/
theorem claim_C6_add_duplicate_witness :
    ("unet" ∈ managerOne.models.map Prod.fst) ∧
    managerOne.add "unet" moduleThree = managerOne :=
  ⟨by decide, claim_C6_add_duplicate managerOne "unet" moduleThree (by decide)⟩

/-- Claim C7: `disable_auto_cpu_offload` is idempotent — a second call is
a no-op — and one call already leaves no stored hooks and the registry
inactive. -/
theorem claim_C7_disable_idempotent (self : ModelManager) :
    self.disable_auto_cpu_offload.disable_auto_cpu_offload
      = self.disable_auto_cpu_offload ∧
    self.disable_auto_cpu_offload.model_hooks = none ∧
    self.disable_auto_cpu_offload.auto_offload_enabled = false := by
  cases h : self.model_hooks with
  | none => simp [ModelManager.disable_auto_cpu_offload, h]
  | some hooks => simp [ModelManager.disable_auto_cpu_offload, h]

/-- Claim C10: on a registry holding zero models, `__repr__` fails rather
than rendering an empty table: the column-width computation (line 287)
takes Python `max` over the empty sequence of id lengths, which raises
`ValueError`. -/
theorem claim_C10_repr_empty_fails (self : ModelManager)
    (h : self.models = []) : self.reprTable = none := by
  simp [ModelManager.reprTable, h, pyMax]

/-- Witness for claim C10: the freshly constructed manager holds no models
and its table rendering fails. -/
theorem claim_C10_repr_empty_fails_witness :
    ModelManager.init.models = [] ∧ ModelManager.init.reprTable = none :=
  ⟨rfl, claim_C10_repr_empty_fails ModelManager.init rfl⟩

/-- Filtering an index-enumerated list to the positions different from `i`
and projecting the elements yields the original list with position `i`
removed (or the whole list if `i` lies before the enumeration start). -/
lemma enumFrom_filter_map {α β : Type} (g : α → β) (i : ℕ) :
    ∀ (l : List α) (k : ℕ),
      ((List.enumFrom k l).filter (fun je => je.1 != i)).map (fun je => g je.2)
        = if i < k then l.map g else (l.map g).eraseIdx (i - k) := by
  intro l
  induction l with
  | nil => intro k; simp
  | cons a l ih =>
    intro k
    rcases Nat.lt_trichotomy k i with hlt | heq | hgt
    · have hne : ((k, a).1 != i) = true := bne_iff_ne.mpr (by omega)
      rw [List.enumFrom_cons, List.filter_cons, if_pos hne, List.map_cons,
        ih (k + 1), if_neg (by omega), if_neg (by omega), List.map_cons,
        show i - k = (i - (k + 1)) + 1 by omega, List.eraseIdx_cons_succ]
    · subst heq
      rw [List.enumFrom_cons, List.filter_cons, if_neg (by simp), ih (k + 1),
        if_pos (by omega), if_neg (by omega)]
      simp
    · have hne : ((k, a).1 != i) = true := bne_iff_ne.mpr (by omega)
      rw [List.enumFrom_cons, List.filter_cons, if_pos hne, List.map_cons,
        ih (k + 1), if_pos (by omega), if_pos (by omega), List.map_cons]

/-- The registry creates one hook per model entry. -/
lemma length_buildHooks (models : List (String × PyModule))
    (dev : TorchDevice) (m : ℚ) :
    (buildHooks models dev m).length = models.length := by
  simp [buildHooks, List.enum_length]

/-- Specialization of `enumFrom_filter_map` to `List.enum`, whose
enumeration starts at index 0. -/
lemma enum_filter_map {α β : Type} (g : α → β) (i : ℕ) (l : List α) :
    ((l.enum.filter (fun je => je.1 != i)).map (fun je => g je.2))
      = (l.map g).eraseIdx i := by
  have h := enumFrom_filter_map g i l 0
  rw [if_neg (Nat.not_lt_zero i), Nat.sub_zero] at h
  exact h

/-- The hook built for position `i` carries that entry's id, the shared
device and margin, and as peer list exactly the ids of all OTHER entries
in order. -/
lemma buildHooks_get (models : List (String × PyModule)) (dev : TorchDevice)
    (m : ℚ) (i : ℕ) (hi : i < models.length)
    (hb : i < (buildHooks models dev m).length) :
    (buildHooks models dev m).get ⟨i, hb⟩ =
      ⟨(models.get ⟨i, hi⟩).1, dev, (models.map Prod.fst).eraseIdx i, m⟩ := by
  simp only [buildHooks, List.get_eq_getElem, List.getElem_map, List.getElem_enum,
    beq_self_eq_true, Bool.and_true]
  rw [enum_filter_map Prod.fst i models]

/-- Every hook built by one `enable` call stores the margin passed to that
call. -/
lemma buildHooks_margin {models : List (String × PyModule)} {dev : TorchDevice}
    {m : ℚ} {h : UserCustomOffloadHook} (hh : h ∈ buildHooks models dev m) :
    h.size_estimation_margin = m := by
  obtain ⟨ie, _, hfe⟩ := List.mem_map.mp hh
  subst hfe
  rfl

/-- The hooks' ids, in order, are the model ids in insertion order. -/
lemma buildHooks_map_model_id (models : List (String × PyModule))
    (dev : TorchDevice) (m : ℚ) :
    (buildHooks models dev m).map (fun h => h.model_id)
      = models.map Prod.fst := by
  have h : models.map Prod.fst = (models.enum.map Prod.snd).map Prod.fst := by
    rw [List.enum_map_snd]
  rw [h, List.map_map]
  unfold buildHooks
  rw [List.map_map]
  rfl

/-- Disabling never changes the stored ids or their order. -/
lemma disable_models_map_fst (self : ModelManager) :
    self.disable_auto_cpu_offload.models.map Prod.fst
      = self.models.map Prod.fst := by
  cases h : self.model_hooks with
  | none => simp [ModelManager.disable_auto_cpu_offload, h]
  | some hooks =>
    simp only [ModelManager.disable_auto_cpu_offload, h, List.map_map]
    apply List.map_congr_left
    intro p _
    by_cases hc : hooks.any (fun hk => hk.model_id == p.1) = true <;>
      simp [Function.comp, hc]

/-- The hook list installed by `enable_auto_cpu_offload`. -/
lemma enable_model_hooks (self : ModelManager) (device : TorchDevice)
    (margin : ℚ) :
    (self.enable_auto_cpu_offload device margin).model_hooks
      = some (buildHooks self.disable_auto_cpu_offload.models
          (normalizeDevice device) margin) := rfl

/-- Enabling marks the registry active. -/
lemma enable_enabled (self : ModelManager) (device : TorchDevice) (margin : ℚ) :
    (self.enable_auto_cpu_offload device margin).auto_offload_enabled = true := rfl

/-- Enabling never changes the stored ids or their order. -/
lemma enable_models_map_fst (self : ModelManager) (device : TorchDevice)
    (margin : ℚ) :
    (self.enable_auto_cpu_offload device margin).models.map Prod.fst
      = self.models.map Prod.fst := by
  unfold ModelManager.enable_auto_cpu_offload
  simp only [List.map_map]
  rw [show (Prod.fst ∘ fun p : String × PyModule => (p.1, toCpu p.2))
      = Prod.fst from rfl]
  exact disable_models_map_fst self

/-- Enabling preserves the number of models. -/
lemma enable_models_length (self : ModelManager) (device : TorchDevice)
    (margin : ℚ) :
    (self.enable_auto_cpu_offload device margin).models.length
      = self.models.length := by
  have h := congrArg List.length (enable_models_map_fst self device margin)
  simpa using h

/-- Disabling preserves the number of models. -/
lemma disable_models_length (self : ModelManager) :
    self.disable_auto_cpu_offload.models.length = self.models.length := by
  have h := congrArg List.length (disable_models_map_fst self)
  simpa using h

/-- Full description of the hooks one `enable` call installs: one per
model, ids in registry order, and every hook's peer list is exactly the
id list with the hook's own position removed. -/
lemma enable_hooks_spec (self : ModelManager) (device : TorchDevice)
    (margin : ℚ) :
    ∃ hooks, (self.enable_auto_cpu_offload device margin).model_hooks
        = some hooks ∧
      hooks.length = self.models.length ∧
      hooks.map (fun h => h.model_id) = self.models.map Prod.fst ∧
      ∀ i (hi : i < hooks.length),
        (hooks.get ⟨i, hi⟩).other_hooks
          = (self.models.map Prod.fst).eraseIdx i := by
  refine ⟨buildHooks self.disable_auto_cpu_offload.models
      (normalizeDevice device) margin, rfl, ?_, ?_, ?_⟩
  · rw [length_buildHooks, disable_models_length]
  · rw [buildHooks_map_model_id, disable_models_map_fst]
  · intro i hi
    have hi2 : i < self.disable_auto_cpu_offload.models.length := by
      rwa [length_buildHooks] at hi
    rw [buildHooks_get _ _ _ i hi2 hi, disable_models_map_fst]

/-- With auto-offload enabled, `add` of a new id appends the entry and
fully rewires by re-running `enable_auto_cpu_offload` on the stored
device with the source's DEFAULT margin `0.1` (line 240 passes no
margin). -/
lemma add_when_enabled (self : ModelManager) (model_id : String)
    (model : PyModule)
    (h : self.models.any (fun p => p.1 == model_id) = false)
    (hen : self.auto_offload_enabled = true) :
    self.add model_id model =
      (ModelManager.mk (self.models ++ [(model_id, model)]) self.model_hooks
          self.auto_offload_enabled
          self.auto_offload_device).enable_auto_cpu_offload
        (self.auto_offload_device.getD cpuDevice) (1/10) := by
  unfold ModelManager.add
  simp [h, hen]

/-- With auto-offload enabled, `remove` of a present id deletes the entry
and fully rewires with the source's DEFAULT margin `0.1` (line 245 passes
no margin). -/
lemma remove_when_enabled (self : ModelManager) (model_id : String)
    (h : self.models.any (fun p => p.1 == model_id) = true)
    (hen : self.auto_offload_enabled = true) :
    self.remove model_id =
      some ((ModelManager.mk (self.models.filter (fun p => p.1 != model_id))
          self.model_hooks self.auto_offload_enabled
          self.auto_offload_device).enable_auto_cpu_offload
        (self.auto_offload_device.getD cpuDevice) (1/10)) := by
  unfold ModelManager.remove
  simp [h, hen]

/-- A fresh id is not matched by the registry membership test run against
the state an `enable` call produced. -/
lemma enable_any_eq_false (self : ModelManager) (device : TorchDevice)
    (margin : ℚ) (new_id : String)
    (hnew : new_id ∉ self.models.map Prod.fst) :
    (self.enable_auto_cpu_offload device margin).models.any
      (fun p => p.1 == new_id) = false := by
  rw [Bool.eq_false_iff]
  intro hc
  obtain ⟨p, hp, hpb⟩ := List.any_eq_true.mp hc
  apply hnew
  rw [← enable_models_map_fst self device margin]
  exact List.mem_map.mpr ⟨p, hp, eq_of_beq hpb⟩

/-- Claim C4: after `enable` on a registry of `n` models, exactly `n`
hooks exist, hook `i` owns model id `i`, and its peer list is exactly the
other `n - 1` ids (the id list with position `i` removed); and after `add`
of a fresh (n+1)-th id while enabled, all `n + 1` hooks' peer lists are
exactly the other `n` ids.  All hooks of one enable call target the same
normalized device, so the peer sets are the full device-scoped peer
groups the spec describes. -/
theorem claim_C4_peer_wiring (self : ModelManager) (device : TorchDevice)
    (margin : ℚ) (new_id : String) (new_model : PyModule)
    (hnew : new_id ∉ self.models.map Prod.fst) :
    (∀ hooks,
      (self.enable_auto_cpu_offload device margin).model_hooks = some hooks →
      hooks.length = self.models.length ∧
      hooks.map (fun h => h.model_id) = self.models.map Prod.fst ∧
      ∀ i (hi : i < hooks.length),
        (hooks.get ⟨i, hi⟩).other_hooks
          = (self.models.map Prod.fst).eraseIdx i) ∧
    (∀ hooks,
      ((self.enable_auto_cpu_offload device margin).add new_id
          new_model).model_hooks = some hooks →
      hooks.length = self.models.length + 1 ∧
      hooks.map (fun h => h.model_id) = self.models.map Prod.fst ++ [new_id] ∧
      ∀ i (hi : i < hooks.length),
        (hooks.get ⟨i, hi⟩).other_hooks
          = (self.models.map Prod.fst ++ [new_id]).eraseIdx i) := by
  constructor
  · intro hooks hmh
    obtain ⟨hooks2, h2, hlen2, hids2, hoth2⟩ :=
      enable_hooks_spec self device margin
    rw [hmh] at h2
    obtain rfl := Option.some.inj h2
    exact ⟨hlen2, hids2, hoth2⟩
  · intro hooks hmh
    rw [add_when_enabled _ new_id new_model
      (enable_any_eq_false self device margin new_id hnew)
      (enable_enabled self device margin)] at hmh
    obtain ⟨hooks2, h2, hlen2, hids2, hoth2⟩ :=
      enable_hooks_spec
        (ModelManager.mk
          ((self.enable_auto_cpu_offload device margin).models
            ++ [(new_id, new_model)])
          (self.enable_auto_cpu_offload device margin).model_hooks
          (self.enable_auto_cpu_offload device margin).auto_offload_enabled
          (self.enable_auto_cpu_offload device margin).auto_offload_device)
        ((self.enable_auto_cpu_offload device margin).auto_offload_device.getD
          cpuDevice) (1/10)
    rw [hmh] at h2
    obtain rfl := Option.some.inj h2
    have hids : ((self.enable_auto_cpu_offload device margin).models
        ++ [(new_id, new_model)]).map Prod.fst
        = self.models.map Prod.fst ++ [new_id] := by
      rw [List.map_append, enable_models_map_fst]
      rfl
    simp only [hids] at hids2 hoth2
    have hlen : ((self.enable_auto_cpu_offload device margin).models
        ++ [(new_id, new_model)]).length = self.models.length + 1 := by
      rw [List.length_append, enable_models_length]
      rfl
    simp only [hlen] at hlen2
    exact ⟨hlen2, hids2, hoth2⟩

/-- Registry holding three models, matching the spec's peer-symmetry
scenario. -/
def managerThree : ModelManager :=
  ⟨[("unet", moduleTen), ("vae", moduleThree), ("te", moduleOne)],
   none, false, none⟩

/-- Witness for claim C4 on a concrete registry of three models, enabled
on `cuda` and then extended with a fresh fourth id. -/
theorem claim_C4_peer_wiring_witness :
    ("clip" ∉ managerThree.models.map Prod.fst) ∧
    ((∀ hooks,
      (managerThree.enable_auto_cpu_offload cudaZero (1/10)).model_hooks
        = some hooks →
      hooks.length = managerThree.models.length ∧
      hooks.map (fun h => h.model_id) = managerThree.models.map Prod.fst ∧
      ∀ i (hi : i < hooks.length),
        (hooks.get ⟨i, hi⟩).other_hooks
          = (managerThree.models.map Prod.fst).eraseIdx i) ∧
    (∀ hooks,
      ((managerThree.enable_auto_cpu_offload cudaZero (1/10)).add "clip"
          moduleOne).model_hooks = some hooks →
      hooks.length = managerThree.models.length + 1 ∧
      hooks.map (fun h => h.model_id)
        = managerThree.models.map Prod.fst ++ ["clip"] ∧
      ∀ i (hi : i < hooks.length),
        (hooks.get ⟨i, hi⟩).other_hooks
          = (managerThree.models.map Prod.fst ++ ["clip"]).eraseIdx i)) :=
  ⟨by decide,
   claim_C4_peer_wiring managerThree cudaZero (1/10) "clip" moduleOne
     (by decide)⟩

/-- A present id passes the registry membership test run against the
state an `enable` call produced. -/
lemma enable_any_eq_true (self : ModelManager) (device : TorchDevice)
    (margin : ℚ) (rem_id : String)
    (hrem : rem_id ∈ self.models.map Prod.fst) :
    (self.enable_auto_cpu_offload device margin).models.any
      (fun p => p.1 == rem_id) = true := by
  rw [← enable_models_map_fst self device margin] at hrem
  obtain ⟨p, hp, hpf⟩ := List.mem_map.mp hrem
  exact List.any_eq_true.mpr ⟨p, hp, by rw [hpf]; exact beq_self_eq_true _⟩

/-- Every hook present after an `enable` call carries that call's
margin. -/
lemma enable_hooks_margin (self : ModelManager) (device : TorchDevice)
    (margin : ℚ) {hooks : List UserCustomOffloadHook}
    (hmh : (self.enable_auto_cpu_offload device margin).model_hooks
        = some hooks) :
    ∀ h ∈ hooks, h.size_estimation_margin = margin := by
  rw [enable_model_hooks] at hmh
  obtain rfl := Option.some.inj hmh
  intro h hh
  exact buildHooks_margin hh

/-- Claim C9: enabling with a non-default margin `m` and then, while
enabled, adding a fresh id or removing a present id rebuilds every hook's
strategy with the DEFAULT margin `0.1`, discarding `m`: `add` (line 240)
and `remove` (line 245) re-invoke `enable_auto_cpu_offload` without a
margin argument. -/
theorem claim_C9_rewire_resets_margin (self : ModelManager)
    (device : TorchDevice) (margin : ℚ) (hm : margin ≠ 1/10)
    (new_id : String) (new_model : PyModule) (rem_id : String)
    (hnew : new_id ∉ self.models.map Prod.fst)
    (hrem : rem_id ∈ self.models.map Prod.fst) :
    (∀ hooks,
      ((self.enable_auto_cpu_offload device margin).add new_id
          new_model).model_hooks = some hooks →
      ∀ h ∈ hooks, h.size_estimation_margin = 1/10) ∧
    (∀ st2, (self.enable_auto_cpu_offload device margin).remove rem_id
        = some st2 →
      ∀ hooks, st2.model_hooks = some hooks →
        ∀ h ∈ hooks, h.size_estimation_margin = 1/10) := by
  constructor
  · intro hooks hmh
    rw [add_when_enabled _ new_id new_model
      (enable_any_eq_false self device margin new_id hnew)
      (enable_enabled self device margin)] at hmh
    exact enable_hooks_margin _ _ _ hmh
  · intro st2 hst2 hooks hmh
    rw [remove_when_enabled _ rem_id
      (enable_any_eq_true self device margin rem_id hrem)
      (enable_enabled self device margin)] at hst2
    obtain rfl := Option.some.inj hst2
    exact enable_hooks_margin _ _ _ hmh

/-- Witness for claim C9: a one-model registry enabled with margin `1/2`;
adding a fresh id and removing the present id both leave every rebuilt
hook with margin `0.1`. -/
theorem claim_C9_rewire_resets_margin_witness :
    (((1:ℚ)/2) ≠ 1/10) ∧ ("vae" ∉ managerOne.models.map Prod.fst) ∧
    ("unet" ∈ managerOne.models.map Prod.fst) ∧
    ((∀ hooks,
      ((managerOne.enable_auto_cpu_offload cudaZero (1/2)).add "vae"
          moduleThree).model_hooks = some hooks →
      ∀ h ∈ hooks, h.size_estimation_margin = 1/10) ∧
    (∀ st2, (managerOne.enable_auto_cpu_offload cudaZero (1/2)).remove "unet"
        = some st2 →
      ∀ hooks, st2.model_hooks = some hooks →
        ∀ h ∈ hooks, h.size_estimation_margin = 1/10)) :=
  ⟨by norm_num, by decide, by decide,
   claim_C9_rewire_resets_margin managerOne cudaZero (1/2) (by norm_num)
     "vae" moduleThree "unet" (by decide) (by decide)⟩
